import Mathlib

/-!
Shallow embedding of the `PowerDetector` pipeline from
`src/02_Intro_Deep_Learning_Part1/powerdetector.py` (Deepwave Digital
webinars repository), together with theorems settling the frozen claims
about it.

A complex sample is a pair of reals (in-phase, quadrature).  The detector
state mirrors the fields set in `PowerDetector.__init__`; `detect` mirrors
the body of `PowerDetector.detect` line by line.  The external library
calls (`cusignal.filter_design.fir_filter_design.firwin` and
`cusignal.decimate`) are not part of this repository's source, so they are
modelled from the spec, as noted in their doc comments.
-/

namespace PowerDetect

/-- A complex sample: (in-phase, quadrature) pair of reals. -/
abbrev Cplx := ℝ × ℝ

/-- One entry of `cp.power(cp.abs(x), 2)` (powerdetector.py line 107):
the magnitude of the complex sample, squared. -/
noncomputable def instPower (c : Cplx) : ℝ :=
  (Real.sqrt (c.1 ^ 2 + c.2 ^ 2)) ^ 2

/-- Power Estimator (powerdetector.py line 107):
`x_power = cp.power(cp.abs(x), 2)`, elementwise over the buffer. -/
noncomputable def powerEnvelope (x : List Cplx) : List ℝ :=
  x.map instPower

/-- Normalized sinc function `sin(pi x) / (pi x)`, with value 1 at 0
(numpy.sinc convention used by firwin). -/
noncomputable def sinc (x : ℝ) : ℝ :=
  if x = 0 then 1 else Real.sin (Real.pi * x) / (Real.pi * x)

/-- Modified Bessel function of the first kind, order zero, as its power
series; used by the Kaiser window. -/
noncomputable def besselI0 (x : ℝ) : ℝ :=
  tsum (fun k : ℕ => ((x / 2) ^ 2) ^ k / ((Nat.factorial k : ℝ)) ^ 2)

/-- Kaiser window of length `m` with shape parameter `beta`, entry `n`
(the window firwin applies when called with `window=('kaiser', 0.5)`). -/
noncomputable def kaiserWin (m : ℕ) (beta : ℝ) (n : ℕ) : ℝ :=
  besselI0 (beta * Real.sqrt (1 - (2 * (n : ℝ) / ((m : ℝ) - 1) - 1) ^ 2)) /
    besselI0 beta

/-- Modelled from the spec: the unscaled tap sequence of
`cusignal.filter_design.fir_filter_design.firwin` (external library, not
under src/) for a single low-pass band `[0, cut]`: tap `k` is
`cut * sinc (cut * (k - (ntaps-1)/2))` times the window. -/
noncomputable def firwinRaw (ntaps : ℕ) (cut beta : ℝ) : List ℝ :=
  (List.range ntaps).map (fun (k : ℕ) =>
    cut * sinc (cut * ((k : ℝ) - ((ntaps : ℝ) - 1) / 2)) * kaiserWin ntaps beta k)

/-- Modelled from the spec: `firwin` with `scale=True` divides the windowed
taps by their sum so that the response at DC is one. -/
noncomputable def firwin (ntaps : ℕ) (cut beta : ℝ) : List ℝ :=
  (firwinRaw ntaps cut beta).map (fun v => v / (firwinRaw ntaps cut beta).sum)

/-- Construction-time failure conditions of the detector, per the spec's
error taxonomy all fatal `InvalidParameter` conditions: `assertionFailed`
is the assert on line 64, `zeroDivision` the division `1/dec` with
`dec = 0`, `invalidCutoff` the firwin rejection of a normalized cutoff
outside (0, 1). -/
inductive DetError where
  | assertionFailed : DetError
  | zeroDivision : DetError
  | invalidCutoff : DetError
deriving DecidableEq

/-- `PowerDetector._create_fir_filter_window` (powerdetector.py lines
76-89): `ntaps = 2*dec+1`, `cut = 1/dec`, Kaiser window with shape 0.5.
The validation is modelled from the spec: the external firwin rejects a
normalized cutoff outside (0, 1), and `1/dec` with `dec = 0` is a division
failure. -/
noncomputable def createFirFilterWindow (dec : ℤ) : Except DetError (List ℝ) :=
  if dec = 0 then Except.error DetError.zeroDivision
  else if ¬ (0 < (1 : ℚ) / (dec : ℚ) ∧ (1 : ℚ) / (dec : ℚ) < 1) then
    Except.error DetError.invalidCutoff
  else Except.ok (firwin (2 * dec + 1).toNat (1 / (dec : ℝ)) (1 / 2))

/-- State of a constructed `PowerDetector`: the fields assigned in
`__init__` (powerdetector.py lines 63-73). -/
structure PowerDetector where
  seg_len : ℕ
  dec : ℕ
  win : List ℝ
  seg_len_dec : ℕ
  thresh : ℝ
  samp_above_thresh : ℕ
  buffLen : ℕ

/-- The fields a successful `__init__` stores, given the FIR window `w`:
`seg_len_dec = int(seg_len/dec)`, `thresh = 10 ** (thresh_db / 10)`. -/
noncomputable def mkFields (buffLen seg_len dec : ℕ) (thresh_db : ℝ) (s : ℕ)
    (w : List ℝ) : PowerDetector :=
  { seg_len := seg_len
    dec := dec
    win := w
    seg_len_dec := seg_len / dec
    thresh := (10 : ℝ) ^ (thresh_db / 10)
    samp_above_thresh := s
    buffLen := buffLen }

/-- The detector a successful construction yields (firwin called with
`2*dec+1` taps, cutoff `1/dec`, Kaiser shape 0.5). -/
noncomputable def mkD (buffLen seg_len dec : ℕ) (thresh_db : ℝ) (s : ℕ) :
    PowerDetector :=
  mkFields buffLen seg_len dec thresh_db s
    (firwin (2 * dec + 1) (1 / (dec : ℝ)) (1 / 2))

/-- `PowerDetector.__init__` (powerdetector.py lines 63-74): evaluating
`seg_len / dec` with `dec = 0` is a division failure, the assert
`samp_above_thresh <= seg_len / dec` fails with an assertion error, and
otherwise the FIR window is created (which may itself fail). -/
noncomputable def mkPowerDetector (buffLen seg_len dec : ℕ) (thresh_db : ℝ)
    (s : ℕ) : Except DetError PowerDetector :=
  if dec = 0 then Except.error DetError.zeroDivision
  else if ¬ ((s : ℚ) ≤ (seg_len : ℚ) / (dec : ℚ)) then
    Except.error DetError.assertionFailed
  else Except.map (fun w => mkFields buffLen seg_len dec thresh_db s w)
    (createFirFilterWindow (dec : ℤ))

/-- Zero-padded lookup of a list at a (possibly negative) index. -/
noncomputable def getZ (xs : List ℝ) (i : ℤ) : ℝ :=
  if 0 ≤ i then xs.getD i.toNat 0 else 0

/-- Modelled from the spec: `cusignal.decimate(x, dec, n=win,
zero_phase=True)` (external library, not under src/) — zero-phase FIR
filtering with kernel `w` whose group delay `delay` is compensated
(the kernel of length `2*dec+1` is centered), with zero-padded edge
extension, then downsampling by `dec`; output length `len(x) / dec`. -/
noncomputable def decimateZP (w : List ℝ) (dec delay : ℕ) (xs : List ℝ) :
    List ℝ :=
  (List.range (xs.length / dec)).map (fun j =>
    ((List.range w.length).map (fun k =>
      w.getD k 0 * getZ xs (((j * dec + k : ℕ) : ℤ) - (delay : ℤ)))).sum)

/-- Lines 107-111 of powerdetector.py: the Decimated Envelope written into
`self._x_power_dec` — the power envelope, zero-phase filtered by the FIR
window (delay `dec`, the center of the `2*dec+1` kernel) and decimated. -/
noncomputable def decimatedEnvelope (d : PowerDetector) (x : List Cplx) :
    List ℝ :=
  decimateZP d.win d.dec d.dec (powerEnvelope x)

/-- `reshape(-1, n)`: split a flat list into `rows` consecutive rows of
`n` entries each. -/
def segmentRows {α : Type} (n rows : ℕ) (xs : List α) : List (List α) :=
  (List.range rows).map (fun i => (xs.drop (i * n)).take n)

/-- Number of samples of a row strictly greater than the linear threshold
`t` (line 117, `x_power_dec_mat > self._thresh`, summed on line 120). -/
noncomputable def countAbove (t : ℝ) (row : List ℝ) : ℕ :=
  row.countP (fun v => decide (t < v))

/-- Line 114: `x_power_dec_mat = self._x_power_dec.reshape(-1,
self._seg_len_dec)`. -/
noncomputable def powMat (d : PowerDetector) (x : List Cplx) : List (List ℝ) :=
  segmentRows d.seg_len_dec ((decimatedEnvelope d x).length / d.seg_len_dec)
    (decimatedEnvelope d x)

/-- Lines 116-120: the Detection Flags written into `self._seg_det_index`
— one flag per row, true iff the count of samples above threshold strictly
exceeds `samp_above_thresh`. -/
noncomputable def detectionFlags (d : PowerDetector) (x : List Cplx) :
    List Bool :=
  (powMat d x).map (fun row =>
    decide (d.samp_above_thresh < countAbove d.thresh row))

/-- Boolean-mask row selection, `rows[flags]` in numpy (line 124). -/
def selectRows {α : Type} (flags : List Bool) (rows : List α) : List α :=
  (flags.zip rows).filterMap (fun p => if p.1 then some p.2 else none)

/-- `PowerDetector.detect` (powerdetector.py lines 91-125): power envelope,
zero-phase decimation, segmentation, per-row thresholded detection, and
selection of the complex-sample rows whose flag is true. -/
noncomputable def detect (d : PowerDetector) (x : List Cplx) :
    List (List Cplx) :=
  selectRows (detectionFlags d x)
    (segmentRows d.seg_len (x.length / d.seg_len) x)

/-! ## Helper lemmas -/

theorem instPower_eq (c : Cplx) : instPower c = c.1 ^ 2 + c.2 ^ 2 := by
  unfold instPower
  exact Real.sq_sqrt (add_nonneg (sq_nonneg _) (sq_nonneg _))

theorem instPower_nonneg (c : Cplx) : 0 ≤ instPower c := by
  unfold instPower
  exact sq_nonneg _

theorem length_segmentRows {α : Type} (n rows : ℕ) (xs : List α) :
    (segmentRows n rows xs).length = rows := by
  simp [segmentRows]

theorem mem_segmentRows {α : Type} {n rows : ℕ} {xs : List α} {row : List α}
    (h : row ∈ segmentRows n rows xs) :
    ∃ i < rows, row = (xs.drop (i * n)).take n := by
  simp only [segmentRows, List.mem_map, List.mem_range] at h
  obtain ⟨i, hi, hrow⟩ := h
  exact ⟨i, hi, hrow.symm⟩

theorem selectRows_cons {α : Type} (b : Bool) (bs : List Bool) (r : α)
    (rs : List α) :
    selectRows (b :: bs) (r :: rs) =
      if b then r :: selectRows bs rs else selectRows bs rs := by
  cases b <;> simp [selectRows]

theorem selectRows_sublist {α : Type} (flags : List Bool) (rows : List α) :
    (selectRows flags rows).Sublist rows := by
  induction flags generalizing rows with
  | nil => simp [selectRows]
  | cons b bs ih =>
    cases rows with
    | nil => simp [selectRows]
    | cons r rs =>
      rw [selectRows_cons]
      cases b with
      | false => simpa using (ih rs).cons r
      | true => simpa using (ih rs).cons₂ r

theorem selectRows_eq_nil {α : Type} (flags : List Bool) (rows : List α)
    (h : ∀ b ∈ flags, b = false) : selectRows flags rows = [] := by
  induction flags generalizing rows with
  | nil => rfl
  | cons b bs ih =>
    cases rows with
    | nil => simp [selectRows]
    | cons r rs =>
      have hb : b = false := h b (List.mem_cons_self b bs)
      rw [selectRows_cons, hb]
      simpa using ih rs (fun c hc => h c (List.mem_cons_of_mem b hc))

/-! ## Claims -/

/-- C2: for every complex input buffer, the Power Estimator produces a real
envelope of the same length whose i-th entry equals the squared magnitude
I^2 + Q^2 of the i-th input sample, and the squared magnitude of a zero
input sample is exactly zero. -/
theorem C2_power_envelope (x : List Cplx) (i : ℕ) (h : i < x.length) :
    (powerEnvelope x).length = x.length ∧
    (powerEnvelope x).getD i 0 =
      (x.getD i (0, 0)).1 ^ 2 + (x.getD i (0, 0)).2 ^ 2 ∧
    instPower (0, 0) = 0 := by
  refine ⟨by simp [powerEnvelope], ?_, by simp [instPower_eq]⟩
  have h2 : i < (powerEnvelope x).length := by
    simpa [powerEnvelope] using h
  rw [List.getD_eq_getElem _ _ h2, List.getD_eq_getElem _ _ h]
  simp [powerEnvelope, instPower_eq]

theorem C2_power_envelope_witness :
    0 < ([((3 : ℝ), 4)] : List Cplx).length ∧
    ((powerEnvelope [((3 : ℝ), 4)]).length =
        ([((3 : ℝ), 4)] : List Cplx).length ∧
      (powerEnvelope [((3 : ℝ), 4)]).getD 0 0 =
        (([((3 : ℝ), 4)] : List Cplx).getD 0 (0, 0)).1 ^ 2 +
          (([((3 : ℝ), 4)] : List Cplx).getD 0 (0, 0)).2 ^ 2 ∧
      instPower (0, 0) = 0) :=
  ⟨by decide, C2_power_envelope [((3 : ℝ), 4)] 0 (by decide)⟩

/-- C1: for every input buffer whose length is evenly divisible by
`seg_len`, `detect` returns exactly the rows of the input reshaped into
`N / seg_len` rows of `seg_len` complex samples whose Detection Flag is
true, in original row order, as a possibly empty sub-matrix; the number of
returned rows never exceeds `N / seg_len` and every returned row has
exactly `seg_len` samples. -/
theorem C1_detect_shape (d : PowerDetector) (x : List Cplx)
    (hpos : 0 < d.seg_len) (hdvd : d.seg_len ∣ x.length) :
    detect d x =
      selectRows (detectionFlags d x)
        (segmentRows d.seg_len (x.length / d.seg_len) x) ∧
    (detect d x).Sublist (segmentRows d.seg_len (x.length / d.seg_len) x) ∧
    (detect d x).length ≤ x.length / d.seg_len ∧
    ∀ r ∈ detect d x, r.length = d.seg_len := by
  refine ⟨rfl, selectRows_sublist _ _, ?_, ?_⟩
  · have h1 := (selectRows_sublist (detectionFlags d x)
      (segmentRows d.seg_len (x.length / d.seg_len) x)).length_le
    simpa [detect, length_segmentRows] using h1
  · intro r hr
    have hr2 : r ∈ segmentRows d.seg_len (x.length / d.seg_len) x :=
      (selectRows_sublist _ _).subset hr
    obtain ⟨i, hi, heq⟩ := mem_segmentRows hr2
    subst heq
    have hle : i * d.seg_len + d.seg_len ≤ x.length := by
      have h2 : (i + 1) * d.seg_len ≤ (x.length / d.seg_len) * d.seg_len :=
        Nat.mul_le_mul_right _ (Nat.succ_le_of_lt hi)
      rw [Nat.div_mul_cancel hdvd] at h2
      calc i * d.seg_len + d.seg_len = (i + 1) * d.seg_len := by ring
        _ ≤ x.length := h2
    rw [List.length_take, List.length_drop]
    omega

theorem C1_detect_shape_witness :
    (0 < (PowerDetector.mk 1 1 [] 1 1 0 2).seg_len ∧
      (PowerDetector.mk 1 1 [] 1 1 0 2).seg_len ∣
        ([((1 : ℝ), 0), ((0 : ℝ), 1)] : List Cplx).length) ∧
    (detect (PowerDetector.mk 1 1 [] 1 1 0 2)
        [((1 : ℝ), 0), ((0 : ℝ), 1)] =
      selectRows
        (detectionFlags (PowerDetector.mk 1 1 [] 1 1 0 2)
          [((1 : ℝ), 0), ((0 : ℝ), 1)])
        (segmentRows (PowerDetector.mk 1 1 [] 1 1 0 2).seg_len
          (([((1 : ℝ), 0), ((0 : ℝ), 1)] : List Cplx).length /
            (PowerDetector.mk 1 1 [] 1 1 0 2).seg_len)
          [((1 : ℝ), 0), ((0 : ℝ), 1)]) ∧
    (detect (PowerDetector.mk 1 1 [] 1 1 0 2)
        [((1 : ℝ), 0), ((0 : ℝ), 1)]).Sublist
      (segmentRows (PowerDetector.mk 1 1 [] 1 1 0 2).seg_len
        (([((1 : ℝ), 0), ((0 : ℝ), 1)] : List Cplx).length /
          (PowerDetector.mk 1 1 [] 1 1 0 2).seg_len)
        [((1 : ℝ), 0), ((0 : ℝ), 1)]) ∧
    (detect (PowerDetector.mk 1 1 [] 1 1 0 2)
        [((1 : ℝ), 0), ((0 : ℝ), 1)]).length ≤
      ([((1 : ℝ), 0), ((0 : ℝ), 1)] : List Cplx).length /
        (PowerDetector.mk 1 1 [] 1 1 0 2).seg_len ∧
    ∀ r ∈ detect (PowerDetector.mk 1 1 [] 1 1 0 2)
        [((1 : ℝ), 0), ((0 : ℝ), 1)],
      r.length = (PowerDetector.mk 1 1 [] 1 1 0 2).seg_len) :=
  ⟨⟨by decide, by decide⟩,
    C1_detect_shape (PowerDetector.mk 1 1 [] 1 1 0 2)
      [((1 : ℝ), 0), ((0 : ℝ), 1)] (by decide) (by decide)⟩

/-- C3: every row's Detection Flag is true iff the number of that row's
samples strictly greater than the linear threshold `T = 10^(thresh_db/10)`
strictly exceeds `samp_above_thresh`. -/
theorem C3_flag_iff (buffLen seg_len dec : ℕ) (thresh_db : ℝ) (s : ℕ)
    (x : List Cplx) (i : ℕ)
    (hi : i < (powMat (mkD buffLen seg_len dec thresh_db s) x).length) :
    (mkD buffLen seg_len dec thresh_db s).thresh =
      (10 : ℝ) ^ (thresh_db / 10) ∧
    ((detectionFlags (mkD buffLen seg_len dec thresh_db s) x).getD i false =
        true ↔
      s < countAbove ((10 : ℝ) ^ (thresh_db / 10))
        ((powMat (mkD buffLen seg_len dec thresh_db s) x).getD i [])) := by
  refine ⟨rfl, ?_⟩
  have hi2 :
      i < (detectionFlags (mkD buffLen seg_len dec thresh_db s) x).length := by
    simpa [detectionFlags] using hi
  rw [List.getD_eq_getElem _ _ hi2, List.getD_eq_getElem _ _ hi]
  simp only [detectionFlags, List.getElem_map, decide_eq_true_eq]
  exact Iff.rfl

theorem C3_flag_iff_witness :
    0 < (powMat (mkD 4 2 2 0 0) [((1 : ℝ), 0), ((0 : ℝ), 0),
      ((0 : ℝ), 0), ((0 : ℝ), 0)]).length ∧
    ((mkD 4 2 2 0 0).thresh = (10 : ℝ) ^ ((0 : ℝ) / 10) ∧
      ((detectionFlags (mkD 4 2 2 0 0) [((1 : ℝ), 0), ((0 : ℝ), 0),
          ((0 : ℝ), 0), ((0 : ℝ), 0)]).getD 0 false = true ↔
        0 < countAbove ((10 : ℝ) ^ ((0 : ℝ) / 10))
          ((powMat (mkD 4 2 2 0 0) [((1 : ℝ), 0), ((0 : ℝ), 0),
            ((0 : ℝ), 0), ((0 : ℝ), 0)]).getD 0 []))) := by
  have hi : 0 < (powMat (mkD 4 2 2 0 0) [((1 : ℝ), 0), ((0 : ℝ), 0),
      ((0 : ℝ), 0), ((0 : ℝ), 0)]).length := by
    simp [powMat, segmentRows, decimatedEnvelope, decimateZP, powerEnvelope,
      mkD, mkFields]
  exact ⟨hi, C3_flag_iff 4 2 2 0 0 [((1 : ℝ), 0), ((0 : ℝ), 0),
    ((0 : ℝ), 0), ((0 : ℝ), 0)] 0 hi⟩

theorem map_createFir_ne_assert (dec : ℤ) (f : List ℝ → PowerDetector) :
    Except.map f (createFirFilterWindow dec) ≠
      Except.error DetError.assertionFailed := by
  unfold createFirFilterWindow
  by_cases h0 : dec = 0
  · rw [if_pos h0]
    simp [Except.map]
  · rw [if_neg h0]
    by_cases h1 : ¬ (0 < (1 : ℚ) / (dec : ℚ) ∧ (1 : ℚ) / (dec : ℚ) < 1)
    · rw [if_pos h1]
      simp [Except.map]
    · rw [if_neg h1]
      simp [Except.map]

/-- C4: construction fails with the assertion error exactly when
`samp_above_thresh` strictly exceeds `seg_len / dec`; whenever
`samp_above_thresh ≤ seg_len / dec` the construction gets past this
validation (its outcome is then decided by the FIR window creation, never
by this check again). -/
theorem C4_construction_validation (buffLen seg_len dec : ℕ) (thresh_db : ℝ)
    (s : ℕ) (hdec : 0 < dec) :
    mkPowerDetector buffLen seg_len dec thresh_db s =
        Except.error DetError.assertionFailed ↔
      (seg_len : ℚ) / (dec : ℚ) < (s : ℚ) := by
  unfold mkPowerDetector
  rw [if_neg (Nat.pos_iff_ne_zero.mp hdec)]
  by_cases hle : (s : ℚ) ≤ (seg_len : ℚ) / (dec : ℚ)
  · rw [if_neg (not_not_intro hle)]
    constructor
    · intro h
      exact absurd h (map_createFir_ne_assert _ _)
    · intro h
      exact absurd hle (not_le.mpr h)
  · rw [if_pos hle]
    simpa using not_le.mp hle

theorem C4_construction_validation_witness :
    0 < 2 ∧
    (mkPowerDetector 8 4 2 0 5 = Except.error DetError.assertionFailed ↔
      (4 : ℚ) / (2 : ℚ) < (5 : ℚ)) := by
  have h := C4_construction_validation 8 4 2 0 5 (by decide)
  exact ⟨by decide, by exact_mod_cast h⟩

/-- C5: FIR filter coefficient generation fails for every decimation
factor `dec < 1` (at `dec = 0` the cutoff `1/dec` is a division failure;
for negative `dec` the normalized cutoff is not inside (0, 1)). -/
theorem C5_firwin_fails (dec : ℤ) (h : dec < 1) :
    ∃ e, createFirFilterWindow dec = Except.error e := by
  unfold createFirFilterWindow
  by_cases h0 : dec = 0
  · exact ⟨DetError.zeroDivision, by rw [if_pos h0]⟩
  · have hcond : ¬ (0 < (1 : ℚ) / (dec : ℚ) ∧ (1 : ℚ) / (dec : ℚ) < 1) := by
      intro hc
      have hneg : (dec : ℚ) < 0 := by
        exact_mod_cast (by omega : dec < 0)
      have h2 : (1 : ℚ) / (dec : ℚ) < 0 := one_div_neg.mpr hneg
      linarith [hc.1]
    exact ⟨DetError.invalidCutoff, by rw [if_neg h0, if_pos hcond]⟩

theorem C5_firwin_fails_witness :
    (0 : ℤ) < 1 ∧ ∃ e, createFirFilterWindow 0 = Except.error e :=
  ⟨by decide, C5_firwin_fails 0 (by decide)⟩

theorem createFir_eq_ok (dec : ℤ) (h : 2 ≤ dec) :
    createFirFilterWindow dec =
      Except.ok (firwin (2 * dec + 1).toNat (1 / (dec : ℝ)) (1 / 2)) := by
  unfold createFirFilterWindow
  have h0 : dec ≠ 0 := by omega
  have hq : (1 : ℚ) < (dec : ℚ) := by
    exact_mod_cast (by omega : (1 : ℤ) < dec)
  have hcond : 0 < (1 : ℚ) / (dec : ℚ) ∧ (1 : ℚ) / (dec : ℚ) < 1 := by
    constructor
    · exact one_div_pos.mpr (by linarith)
    · rw [div_lt_one (by linarith)]
      exact hq
  rw [if_neg h0, if_neg (not_not_intro hcond)]

/-- C6: for every decimation factor accepted at construction, the FIR
kernel is the deterministic Kaiser-windowed (shape 0.5) low-pass design
with cutoff `1/dec`, of exactly `2*dec + 1` tap coefficients, a function
of `dec` alone. -/
theorem C6_fir_kernel (dec : ℤ) (h : 2 ≤ dec) :
    createFirFilterWindow dec =
      Except.ok (firwin (2 * dec + 1).toNat (1 / (dec : ℝ)) (1 / 2)) ∧
    (firwin (2 * dec + 1).toNat (1 / (dec : ℝ)) (1 / 2)).length =
      2 * dec.toNat + 1 := by
  refine ⟨createFir_eq_ok dec h, ?_⟩
  simp only [firwin, firwinRaw, List.length_map, List.length_range]
  omega

theorem C6_fir_kernel_witness :
    (2 : ℤ) ≤ 2 ∧
    (createFirFilterWindow 2 =
        Except.ok (firwin ((2 : ℤ) * 2 + 1).toNat (1 / ((2 : ℤ) : ℝ)) (1 / 2)) ∧
      (firwin ((2 : ℤ) * 2 + 1).toNat (1 / ((2 : ℤ) : ℝ)) (1 / 2)).length =
        2 * (2 : ℤ).toNat + 1) :=
  ⟨by decide, C6_fir_kernel 2 (by decide)⟩

theorem countAbove_anti (t1 t2 : ℝ) (row : List ℝ) (h : t1 ≤ t2) :
    countAbove t2 row ≤ countAbove t1 row := by
  unfold countAbove
  refine List.countP_mono_left (fun v _ hv => ?_)
  simp only [decide_eq_true_eq] at hv ⊢
  exact lt_of_le_of_lt h hv

/-- C7: for a fixed input buffer and fixed `dec`, `seg_len`,
`samp_above_thresh`, raising `thresh_db` never increases the number of
flagged segments. -/
theorem C7_threshold_monotone (buffLen seg_len dec : ℕ) (db1 db2 : ℝ)
    (s : ℕ) (x : List Cplx) (h : db1 ≤ db2) :
    (detectionFlags (mkD buffLen seg_len dec db2 s) x).countP (fun b => b) ≤
    (detectionFlags (mkD buffLen seg_len dec db1 s) x).countP (fun b => b) := by
  have hT : (10 : ℝ) ^ (db1 / 10) ≤ (10 : ℝ) ^ (db2 / 10) :=
    Real.rpow_le_rpow_of_exponent_le (by norm_num)
      ((div_le_div_iff_of_pos_right (by norm_num)).mpr h)
  have hmat : powMat (mkD buffLen seg_len dec db2 s) x =
      powMat (mkD buffLen seg_len dec db1 s) x := rfl
  unfold detectionFlags
  rw [hmat, List.countP_map, List.countP_map]
  refine List.countP_mono_left (fun row _ hrow => ?_)
  simp only [Function.comp_apply, decide_eq_true_eq] at hrow ⊢
  calc (mkD buffLen seg_len dec db1 s).samp_above_thresh
      = (mkD buffLen seg_len dec db2 s).samp_above_thresh := rfl
    _ < countAbove (mkD buffLen seg_len dec db2 s).thresh row := hrow
    _ ≤ countAbove (mkD buffLen seg_len dec db1 s).thresh row :=
        countAbove_anti _ _ row hT

theorem C7_threshold_monotone_witness :
    (0 : ℝ) ≤ 1 ∧
    (detectionFlags (mkD 4 2 2 1 0) [((1 : ℝ), 0), ((0 : ℝ), 0),
        ((0 : ℝ), 0), ((0 : ℝ), 0)]).countP (fun b => b) ≤
    (detectionFlags (mkD 4 2 2 0 0) [((1 : ℝ), 0), ((0 : ℝ), 0),
        ((0 : ℝ), 0), ((0 : ℝ), 0)]).countP (fun b => b) :=
  ⟨zero_le_one, C7_threshold_monotone 4 2 2 0 1 0
    [((1 : ℝ), 0), ((0 : ℝ), 0), ((0 : ℝ), 0), ((0 : ℝ), 0)] zero_le_one⟩

theorem getD_zero_of_all_zero (xs : List ℝ) (h : ∀ v ∈ xs, v = 0) (i : ℕ) :
    xs.getD i 0 = 0 := by
  rcases Nat.lt_or_ge i xs.length with hi | hi
  · rw [List.getD_eq_getElem _ _ hi]
    exact h _ (List.getElem_mem hi)
  · rw [List.getD_eq_default _ _ hi]

theorem getZ_zero_of_all_zero (xs : List ℝ) (h : ∀ v ∈ xs, v = 0) (i : ℤ) :
    getZ xs i = 0 := by
  unfold getZ
  by_cases hi : 0 ≤ i
  · rw [if_pos hi]
    exact getD_zero_of_all_zero xs h _
  · rw [if_neg hi]

/-- C8: for an all-zero input buffer and a strictly positive linear
threshold, the Power Envelope is all-zero, the Decimated Envelope is
all-zero, every Detection Flag is false, and `detect` returns an empty
matrix. -/
theorem C8_all_zero_input (d : PowerDetector) (n : ℕ) (ht : 0 < d.thresh) :
    (∀ v ∈ powerEnvelope (List.replicate n ((0 : ℝ), (0 : ℝ))), v = 0) ∧
    (∀ v ∈ decimatedEnvelope d (List.replicate n ((0 : ℝ), (0 : ℝ))), v = 0) ∧
    (∀ b ∈ detectionFlags d (List.replicate n ((0 : ℝ), (0 : ℝ))),
      b = false) ∧
    detect d (List.replicate n ((0 : ℝ), (0 : ℝ))) = [] := by
  have hpe : ∀ v ∈ powerEnvelope (List.replicate n ((0 : ℝ), (0 : ℝ))),
      v = 0 := by
    intro v hv
    simp only [powerEnvelope, List.mem_map] at hv
    obtain ⟨c, hc, hveq⟩ := hv
    have hc0 : c = ((0 : ℝ), (0 : ℝ)) := List.eq_of_mem_replicate hc
    rw [← hveq, hc0, instPower_eq]
    norm_num
  have hde : ∀ v ∈ decimatedEnvelope d (List.replicate n ((0 : ℝ), (0 : ℝ))),
      v = 0 := by
    intro v hv
    simp only [decimatedEnvelope, decimateZP, List.mem_map,
      List.mem_range] at hv
    obtain ⟨j, _, hveq⟩ := hv
    rw [← hveq]
    apply List.sum_eq_zero
    intro t ht'
    simp only [List.mem_map, List.mem_range] at ht'
    obtain ⟨k, _, hteq⟩ := ht'
    rw [← hteq, getZ_zero_of_all_zero _ hpe, mul_zero]
  have hflags : ∀ b ∈ detectionFlags d (List.replicate n ((0 : ℝ), (0 : ℝ))),
      b = false := by
    intro b hb
    simp only [detectionFlags, List.mem_map] at hb
    obtain ⟨row, hrow, hbeq⟩ := hb
    have hcount : countAbove d.thresh row = 0 := by
      unfold countAbove
      rw [List.countP_eq_zero]
      intro v hv
      simp only [powMat] at hrow
      obtain ⟨i, _, hreq⟩ := mem_segmentRows hrow
      have hv' : v ∈ decimatedEnvelope d (List.replicate n ((0 : ℝ), (0 : ℝ))) := by
        rw [hreq] at hv
        exact List.drop_subset _ _ (List.take_subset _ _ hv)
      rw [hde v hv']
      simp only [decide_eq_true_eq]
      exact not_lt.mpr (le_of_lt ht)
    rw [← hbeq, hcount]
    simp
  refine ⟨hpe, hde, hflags, ?_⟩
  unfold detect
  exact selectRows_eq_nil _ _ hflags

theorem C8_all_zero_input_witness :
    0 < (PowerDetector.mk 2 1 [] 2 1 0 4).thresh ∧
    ((∀ v ∈ powerEnvelope (List.replicate 4 ((0 : ℝ), (0 : ℝ))), v = 0) ∧
      (∀ v ∈ decimatedEnvelope (PowerDetector.mk 2 1 [] 2 1 0 4)
        (List.replicate 4 ((0 : ℝ), (0 : ℝ))), v = 0) ∧
      (∀ b ∈ detectionFlags (PowerDetector.mk 2 1 [] 2 1 0 4)
        (List.replicate 4 ((0 : ℝ), (0 : ℝ))), b = false) ∧
      detect (PowerDetector.mk 2 1 [] 2 1 0 4)
        (List.replicate 4 ((0 : ℝ), (0 : ℝ))) = []) :=
  ⟨one_pos, C8_all_zero_input (PowerDetector.mk 2 1 [] 2 1 0 4) 4 one_pos⟩

theorem besselI0_nonneg (x : ℝ) : 0 ≤ besselI0 x :=
  tsum_nonneg (fun _ => div_nonneg (pow_nonneg (sq_nonneg _) _) (sq_nonneg _))

theorem kaiserWin_nonneg (m : ℕ) (beta : ℝ) (n : ℕ) : 0 ≤ kaiserWin m beta n :=
  div_nonneg (besselI0_nonneg _) (besselI0_nonneg _)

theorem sinc_nonneg_of_mem_Icc (x : ℝ) (h1 : -1 ≤ x) (h2 : x ≤ 1) :
    0 ≤ sinc x := by
  unfold sinc
  by_cases h0 : x = 0
  · rw [if_pos h0]
    norm_num
  · rw [if_neg h0]
    rcases lt_or_gt_of_ne h0 with hneg | hpos
    · apply div_nonneg_of_nonpos
      · have hx : Real.pi * x = -(Real.pi * (-x)) := by ring
        rw [hx, Real.sin_neg, neg_nonpos]
        apply Real.sin_nonneg_of_nonneg_of_le_pi
        · exact mul_nonneg Real.pi_pos.le (by linarith)
        · calc Real.pi * (-x) ≤ Real.pi * 1 :=
              mul_le_mul_of_nonneg_left (by linarith) Real.pi_pos.le
            _ = Real.pi := mul_one _
      · nlinarith [Real.pi_pos]
    · apply div_nonneg
      · apply Real.sin_nonneg_of_nonneg_of_le_pi
        · exact mul_nonneg Real.pi_pos.le hpos.le
        · calc Real.pi * x ≤ Real.pi * 1 :=
              mul_le_mul_of_nonneg_left h2 Real.pi_pos.le
            _ = Real.pi := mul_one _
      · exact mul_nonneg Real.pi_pos.le hpos.le

theorem firwinRaw_nonneg (dec : ℕ) (hdec : 1 ≤ dec) :
    ∀ v ∈ firwinRaw (2 * dec + 1) (1 / (dec : ℝ)) (1 / 2), 0 ≤ v := by
  intro v hv
  simp only [firwinRaw, List.mem_map, List.mem_range] at hv
  obtain ⟨k, hk, hveq⟩ := hv
  rw [← hveq]
  have hdpos : (0 : ℝ) < (dec : ℝ) := by
    exact_mod_cast Nat.lt_of_lt_of_le Nat.zero_lt_one hdec
  refine mul_nonneg (mul_nonneg (by positivity) ?_) (kaiserWin_nonneg _ _ _)
  have harg : (1 / (dec : ℝ)) * ((k : ℝ) - (((2 * dec + 1 : ℕ) : ℝ) - 1) / 2) =
      ((k : ℝ) - (dec : ℝ)) / (dec : ℝ) := by
    push_cast
    ring
  rw [harg]
  have hk' : (k : ℝ) ≤ 2 * (dec : ℝ) := by
    exact_mod_cast Nat.lt_succ_iff.mp hk
  have hk0 : (0 : ℝ) ≤ (k : ℝ) := Nat.cast_nonneg k
  apply sinc_nonneg_of_mem_Icc
  · rw [le_div_iff₀ hdpos]
    linarith
  · rw [div_le_one hdpos]
    linarith

theorem firwin_nonneg (dec : ℕ) (hdec : 1 ≤ dec) :
    ∀ v ∈ firwin (2 * dec + 1) (1 / (dec : ℝ)) (1 / 2), 0 ≤ v := by
  intro v hv
  simp only [firwin, List.mem_map] at hv
  obtain ⟨u, hu, hveq⟩ := hv
  rw [← hveq]
  exact div_nonneg (firwinRaw_nonneg dec hdec u hu)
    (List.sum_nonneg (firwinRaw_nonneg dec hdec))

theorem getD_nonneg_of_all_nonneg (xs : List ℝ) (h : ∀ v ∈ xs, 0 ≤ v)
    (i : ℕ) : 0 ≤ xs.getD i 0 := by
  rcases Nat.lt_or_ge i xs.length with hi | hi
  · rw [List.getD_eq_getElem _ _ hi]
    exact h _ (List.getElem_mem hi)
  · rw [List.getD_eq_default _ _ hi]

theorem getZ_nonneg (xs : List ℝ) (h : ∀ v ∈ xs, 0 ≤ v) (i : ℤ) :
    0 ≤ getZ xs i := by
  unfold getZ
  by_cases hi : 0 ≤ i
  · rw [if_pos hi]
    exact getD_nonneg_of_all_nonneg xs h _
  · rw [if_neg hi]

/-- C9: for every complex input buffer, every entry of the Decimated
Envelope of a constructed detector is non-negative, and its length is
`N / dec`. -/
theorem C9_decimated_nonneg (buffLen seg_len dec : ℕ) (db : ℝ) (s : ℕ)
    (x : List Cplx) (hdec : 1 ≤ dec) :
    (decimatedEnvelope (mkD buffLen seg_len dec db s) x).length =
      x.length / dec ∧
    ∀ v ∈ decimatedEnvelope (mkD buffLen seg_len dec db s) x, 0 ≤ v := by
  constructor
  · simp [decimatedEnvelope, decimateZP, powerEnvelope, mkD, mkFields]
  · intro v hv
    simp only [decimatedEnvelope, decimateZP, List.mem_map,
      List.mem_range] at hv
    obtain ⟨j, _, hveq⟩ := hv
    rw [← hveq]
    apply List.sum_nonneg
    intro t ht
    simp only [List.mem_map, List.mem_range] at ht
    obtain ⟨k, _, hteq⟩ := ht
    rw [← hteq]
    apply mul_nonneg
    · exact getD_nonneg_of_all_nonneg _ (firwin_nonneg dec hdec) k
    · apply getZ_nonneg
      intro w hw
      simp only [powerEnvelope, List.mem_map] at hw
      obtain ⟨c, _, hweq⟩ := hw
      rw [← hweq]
      exact instPower_nonneg c

theorem C9_decimated_nonneg_witness :
    1 ≤ 2 ∧
    ((decimatedEnvelope (mkD 4 2 2 0 0)
        [((1 : ℝ), 0), ((0 : ℝ), 0), ((0 : ℝ), 0), ((0 : ℝ), 0)]).length =
      ([((1 : ℝ), 0), ((0 : ℝ), 0), ((0 : ℝ), 0),
        ((0 : ℝ), 0)] : List Cplx).length / 2 ∧
    ∀ v ∈ decimatedEnvelope (mkD 4 2 2 0 0)
        [((1 : ℝ), 0), ((0 : ℝ), 0), ((0 : ℝ), 0), ((0 : ℝ), 0)], 0 ≤ v) :=
  ⟨by decide, C9_decimated_nonneg 4 2 2 0 0
    [((1 : ℝ), 0), ((0 : ℝ), 0), ((0 : ℝ), 0), ((0 : ℝ), 0)] (by decide)⟩

/-- C10: with `samp_above_thresh = seg_len / dec` — a configuration the
construction-time check accepts — a row's count of above-threshold samples
can never strictly exceed `samp_above_thresh`, so every Detection Flag is
false and `detect` returns an empty matrix for every input. -/
theorem C10_max_samp_never_flags (buffLen seg_len dec : ℕ) (db : ℝ)
    (x : List Cplx) (h2 : 2 ≤ dec) (_hdvd : dec ∣ seg_len) :
    mkPowerDetector buffLen seg_len dec db (seg_len / dec) =
      Except.ok (mkD buffLen seg_len dec db (seg_len / dec)) ∧
    (∀ b ∈ detectionFlags (mkD buffLen seg_len dec db (seg_len / dec)) x,
      b = false) ∧
    detect (mkD buffLen seg_len dec db (seg_len / dec)) x = [] := by
  have hflags : ∀ b ∈ detectionFlags
      (mkD buffLen seg_len dec db (seg_len / dec)) x, b = false := by
    intro b hb
    simp only [detectionFlags, List.mem_map] at hb
    obtain ⟨row, hrow, hbeq⟩ := hb
    simp only [powMat] at hrow
    obtain ⟨i, _, hreq⟩ := mem_segmentRows hrow
    have hlen : row.length ≤ seg_len / dec := by
      rw [hreq]
      exact le_trans (List.length_take_le _ _) le_rfl
    have hcount : countAbove (mkD buffLen seg_len dec db (seg_len / dec)).thresh
        row ≤ seg_len / dec :=
      le_trans (List.countP_le_length _) hlen
    rw [← hbeq]
    simp only [decide_eq_false_iff_not]
    exact Nat.not_lt.mpr hcount
  refine ⟨?_, hflags, ?_⟩
  · unfold mkPowerDetector
    have h0 : dec ≠ 0 := by omega
    have hle : ((seg_len / dec : ℕ) : ℚ) ≤ (seg_len : ℚ) / (dec : ℚ) :=
      Nat.cast_div_le
    rw [if_neg h0, if_neg (not_not_intro hle),
      createFir_eq_ok (dec : ℤ) (by exact_mod_cast h2)]
    have ha : (2 * (dec : ℤ) + 1).toNat = 2 * dec + 1 := by omega
    have hb : (((dec : ℕ) : ℤ) : ℝ) = ((dec : ℕ) : ℝ) := by push_cast; rfl
    have hw : firwin (2 * (dec : ℤ) + 1).toNat (1 / (((dec : ℕ) : ℤ) : ℝ))
        (1 / 2) = firwin (2 * dec + 1) (1 / (dec : ℝ)) (1 / 2) := by
      rw [ha, hb]
    simp only [Except.map, hw]
    rfl
  · unfold detect
    exact selectRows_eq_nil _ _ hflags

theorem C10_max_samp_never_flags_witness :
    (2 ≤ 2 ∧ 2 ∣ 4) ∧
    (mkPowerDetector 8 4 2 0 (4 / 2) =
        Except.ok (mkD 8 4 2 0 (4 / 2)) ∧
      (∀ b ∈ detectionFlags (mkD 8 4 2 0 (4 / 2)) ([] : List Cplx),
        b = false) ∧
      detect (mkD 8 4 2 0 (4 / 2)) ([] : List Cplx) = []) :=
  ⟨⟨by decide, by decide⟩,
    C10_max_samp_never_flags 8 4 2 0 ([] : List Cplx) (by decide) (by decide)⟩

end PowerDetect
